import Mathlib

/-!
Shallow embedding of the DownloadBook PDF handler's assembly core:
the TOC paginator (`src/downloadbook_pdf_handler/toc.py`), the fragment
registry, assembler and link rewriter (`src/collection.py`), and the
header/footer decorator (`src/common.py`).  Layout coordinates are
integers (every constant involved is an integer and all arithmetic on
vertical positions is exact); measured text widths, which the source
obtains as floats from a font library, are rationals supplied by an
abstract measure function.
-/

namespace DownloadBook

/-- `Common.LINE_HEIGHT` in src/common.py. -/
def LINE_HEIGHT : Int := 20

/-- `Common.HF_FONT_SIZE` in src/common.py. -/
def HF_FONT_SIZE : Int := 10

/-- `Common.MARGIN` in src/common.py. -/
def MARGIN : Int := 72

/-- `Common.PAGE_HEIGHT` in src/common.py. -/
def PAGE_HEIGHT : Int := 792

/-- `Common.PAGE_WIDTH` in src/common.py. -/
def PAGE_WIDTH : Int := 612

/-- `TOC_FONT_SIZE` in src/downloadbook_pdf_handler/toc.py. -/
def TOC_FONT_SIZE : Int := 12

/-- `TOC_FONT_HEADER_SIZE` in src/downloadbook_pdf_handler/toc.py. -/
def TOC_FONT_HEADER_SIZE : Int := 18

/-- The `TocEntry` namedtuple of src/downloadbook_pdf_handler/toc.py:
`("url", "title", "page", "level")`. -/
structure TocEntry where
  url : String
  title : String
  page : Nat
  level : Nat
deriving DecidableEq, Repr

/-! ## TOC paginator (src/downloadbook_pdf_handler/toc.py) -/

/-- The entry-placing loop of `TableOfContents.generate_single_toc_page`
(toc.py lines 239-250).  Given the suffix of `title_list` starting at
`next_idx` and the current `toc_position`, it places each entry at the
current position, decrements the position by `LINE_HEIGHT`, and breaks
once the position falls below `MARGIN + LINE_HEIGHT`.  Returns the
placed `(entry, vertical offset)` pairs of this page and the remaining
entries. -/
def pageLoop : List TocEntry → Int → List (TocEntry × Int) × List TocEntry
  | [], _ => ([], [])
  | e :: rest, pos =>
    if pos - LINE_HEIGHT < MARGIN + LINE_HEIGHT then
      ([(e, pos)], rest)
    else
      let r := pageLoop rest (pos - LINE_HEIGHT)
      ((e, pos) :: r.1, r.2)

/-- The initial `toc_position` of `generate_single_toc_page`
(toc.py lines 226-234): `PAGE_HEIGHT - MARGIN - 2 * TOC_FONT_HEADER_SIZE`,
raised by `TOC_FONT_SIZE` on the very first page (`start_idx == 0`),
where the "Table of Contents" title block is also emitted. -/
def toc_start_position (first : Bool) : Int :=
  if first then PAGE_HEIGHT - MARGIN - 2 * TOC_FONT_HEADER_SIZE + TOC_FONT_SIZE
  else PAGE_HEIGHT - MARGIN - 2 * TOC_FONT_HEADER_SIZE

/-- `TableOfContents.generate_single_toc_page` (toc.py lines 209-267),
restricted to layout: from the remaining entries and the flag telling
whether this is the first TOC page, produce the entries of this page
with their vertical offsets, plus the entries left for further pages. -/
def generate_single_toc_page (l : List TocEntry) (first : Bool) :
    List (TocEntry × Int) × List TocEntry :=
  pageLoop l (toc_start_position first)

/-- `TableOfContents.generate_toc_pdf` (toc.py lines 269-286): generate
single pages until all entries are processed.  The source's `while` loop
runs one iteration per generated page; since every generated page
consumes at least one entry, `fuel = length of the entry list` bounds
the number of iterations, and `generate_toc_pdf` below passes exactly
that.  The result lists, per page, the `(entry, vertical offset)` pairs
laid out on it. -/
def generate_toc_pages : Nat → List TocEntry → Bool → List (List (TocEntry × Int))
  | 0, _, _ => []
  | _ + 1, [], _ => []
  | fuel + 1, e :: rest, first =>
    (generate_single_toc_page (e :: rest) first).1 ::
      generate_toc_pages fuel (generate_single_toc_page (e :: rest) first).2 false

/-- `generate_toc_pdf` as called on the full title list. -/
def generate_toc_pdf (l : List TocEntry) : List (List (TocEntry × Int)) :=
  generate_toc_pages l.length l true

/-! ## Fragment registry (src/collection.py, `render_pdf` / `output_page`) -/

/-- The data `Collection.render_pdf` receives per fragment: the source
URL, the extracted title, the ToC nesting level, and the number of pages
the external renderer produced for it. -/
structure Fragment where
  url : String
  title : String
  level : Nat
  page_count : Nat
deriving DecidableEq, Repr

/-- The registry state threaded through `Collection`: `page_num`
(initialized to 1 in `__init__`), `title_list`, and `url_to_page`.
The URL map is an association list whose most recent binding comes
first, matching assignment into a Python dict under `List.lookup`. -/
structure RegState where
  page_num : Nat
  title_list : List TocEntry
  url_to_page : List (String × Nat)
deriving DecidableEq, Repr

/-- `Collection.__init__`: `page_num = 1`, empty lists. -/
def initial_state : RegState := ⟨1, [], []⟩

/-- The registration a completed fragment performs, combining
`render_pdf` lines 266-267 (append a `TocEntry` carrying the current
`page_num`; record `url -> page_num + 1`) with `output_page` lines
315-318 (advance `page_num` by the fragment's page count). -/
def register_fragment (s : RegState) (f : Fragment) : RegState :=
  { page_num := s.page_num + f.page_count
  , title_list := s.title_list ++ [⟨f.url, f.title, s.page_num, f.level⟩]
  , url_to_page := (f.url, s.page_num + 1) :: s.url_to_page }

/-- Register a sequence of fragments strictly in completion order. -/
def register_fragments (fs : List Fragment) : RegState :=
  fs.foldl register_fragment initial_state

/-- The `TocEntry` list `register_fragments` builds, written directly:
one entry per fragment, whose page is the running counter. -/
def entriesFrom (p : Nat) : List Fragment → List TocEntry
  | [] => []
  | f :: rest => ⟨f.url, f.title, p, f.level⟩ :: entriesFrom (p + f.page_count) rest

/-- The `url -> page` pairs `register_fragments` records, in
registration order. -/
def urlPairsFrom (p : Nat) : List Fragment → List (String × Nat)
  | [] => []
  | f :: rest => (f.url, p + 1) :: urlPairsFrom (p + f.page_count) rest

/-- The TOC-insertion loop of `Collection.concat_pages` (collection.py
lines 134-139): starting from `page = 1`, insert each generated TOC page
at index `page - 1` of the assembled document and increment `page`. -/
def insert_toc_pages_from {α : Type} : List α → Nat → List α → List α
  | doc, _, [] => doc
  | doc, i, t :: ts => insert_toc_pages_from (doc.insertIdx i t) (i + 1) ts

/-- Insert the TOC pages at the front of the assembled body pages,
as `concat_pages` does after appending all fragment pages. -/
def insert_toc_pages {α : Type} (doc : List α) (toc : List α) : List α :=
  insert_toc_pages_from doc 0 toc

/-- Scenario A of the spec: three fragments with page counts [2, 1, 3],
titles ["Intro", "Setup", "Details"], all at level 1. -/
def fragmentsA : List Fragment :=
  [⟨"https://wiki/Intro", "Intro", 1, 2⟩,
   ⟨"https://wiki/Setup", "Setup", 1, 1⟩,
   ⟨"https://wiki/Details", "Details", 1, 3⟩]

/-! ## Link rewriter (src/collection.py, `replace_links_in_page` /
`replace_url_link`) -/

/-- A link action dictionary `/A`: its `/S` kind (`"/URI"` for the
external-reference kind, `"/GoTo"` for an internal jump), its optional
`/URI` string, and its optional `/D` destination `[page, fit]`. -/
structure PdfAction where
  s : String
  uri : Option String
  dest : Option (Nat × String)
deriving DecidableEq, Repr

/-- An annotation: its `/Subtype` and its optional action `/A`. -/
structure Annot where
  subtype : String
  a : Option PdfAction
deriving DecidableEq, Repr

/-- `Collection.replace_url_link` (collection.py lines 349-372): replace
the annotation's action with a `/GoTo` action whose destination is
`[url_to_page[uri], /Fit]`.  Only called when `uri` is in the map; the
`getD` default is never reached there (Python would raise `KeyError`). -/
def replace_url_link (m : List (String × Nat)) (uri : String) (annot : Annot) : Annot :=
  { annot with a := some ⟨"/GoTo", none, some ((m.lookup uri).getD 0, "/Fit")⟩ }

/-- The per-annotation body of `Collection.replace_links_in_page`
(collection.py lines 341-347): read `/A` only for `/Link` subtypes, read
its `/URI`, and rewrite exactly when that URI is in `url_to_page`. -/
def rewrite_annot (m : List (String × Nat)) (annot : Annot) : Annot :=
  let a := if annot.subtype = "/Link" then annot.a else none
  match a.bind PdfAction.uri with
  | some u => if (m.lookup u).isSome then replace_url_link m u annot else annot
  | none => annot

/-- `Collection.replace_links_in_page` over a page's annotation list. -/
def replace_links_in_page (m : List (String × Nat)) (annots : List Annot) :
    List Annot :=
  annots.map (rewrite_annot m)

/-! ## Persistence (src/collection.py, `concat_pages` lines 141-146) -/

/-- The save call `pdf_writer.save(self.output_file)`: persisting to an
invalid path raises `OSError` (modelled by `path_ok = false`). -/
def save_document (path_ok : Bool) : Except String Unit :=
  if path_ok then Except.ok () else Except.error "OSError"

/-- The `try/except OSError` around the save (collection.py lines
141-146): on failure the handler calls `self.logger.fatal(...)` and
falls through, so `concat_pages` returns normally either way.  The
result pairs what the caller observes with the log messages emitted. -/
def concat_pages_save (path_ok : Bool) : Except String Unit × List String :=
  match save_document path_ok with
  | Except.ok _ => (Except.ok (), [])
  | Except.error _ =>
      (Except.ok (), ["OSError when trying to save. Does the name contain bad characters?"])

/-! ## Page decorator (src/common.py, `Common.header` / `Common.footer`) -/

/-- The text-drawing block a decorator emits: font reference, font size,
the `Tm` position `(x, y)`, and the drawn text. -/
structure DrawOp where
  font_sign : String
  font_size : Int
  x : Rat
  y : Rat
  text : String
deriving DecidableEq, Repr

/-- `Common.header` (common.py lines 49-74): text at
`x = MARGIN`, `y = PAGE_HEIGHT - MARGIN + 2 * font_size`. -/
def header (text : String) (font_size : Int) (font_sign : String) : DrawOp :=
  ⟨font_sign, font_size, (MARGIN : Rat),
    ((PAGE_HEIGHT - MARGIN + 2 * font_size : Int) : Rat), text⟩

/-- `Common.footer` (common.py lines 76-104): the measured text width is
abstracted by `tw` (the source calls `Common.text_width`, a font-library
float); `x = PAGE_WIDTH - width - MARGIN`, `y = MARGIN - font_size`. -/
def footer (tw : String → Int → Rat) (text : String) (font_size : Int)
    (font_sign : String) : DrawOp :=
  ⟨font_sign, font_size, (PAGE_WIDTH : Rat) - tw text font_size - (MARGIN : Rat),
    ((MARGIN - font_size : Int) : Rat), text⟩

/-! ## Font resource registration (src/collection.py,
`ensure_resources` / src/common.py, `font_dictionary`) -/

/-- `Common.font_dictionary`: a `/Type1` font dictionary for the named
base font. -/
structure FontDict where
  font_type : String
  font_subtype : String
  base_font : String
deriving DecidableEq, Repr

/-- `Common.font_dictionary(font_name)` (common.py lines 106-127). -/
def font_dictionary (font_name : String) : FontDict :=
  ⟨"/Font", "/Type1", "/" ++ font_name⟩

/-- pikepdf `Page.add_resource(res, res_type, name)` with its default
`replace_existing=True`: bind `name` in the page's font table, replacing
an existing binding of the same name rather than adding a second one. -/
def insert_or_replace (k : String) (v : FontDict) :
    List (String × FontDict) → List (String × FontDict)
  | [] => [(k, v)]
  | (k2, v2) :: rest =>
    if k2 = k then (k, v) :: rest else (k2, v2) :: insert_or_replace k v rest

/-- A page's `/Resources` `/Font` table. -/
structure PageResources where
  fonts : List (String × FontDict)
deriving DecidableEq, Repr

/-- The `page.add_resource(font_dict, Name.Font, Name(HF_FONT_SIGN))`
call. -/
def add_resource (page : PageResources) (res : FontDict) (name : String) :
    PageResources :=
  ⟨insert_or_replace name res page.fonts⟩

/-- `Collection.ensure_resources` (collection.py lines 171-182):
register `Common.font_dictionary()` (base font `Common.FONT_FAMILY`,
i.e. Arial) under `Common.HF_FONT_SIGN = "/F2"`. -/
def ensure_resources (page : PageResources) : PageResources :=
  add_resource page (font_dictionary "Arial") "/F2"

/-! ## TOC text escaping (src/downloadbook_pdf_handler/toc.py,
`PdfTocEntry.escape_pdf_text`) -/

/-- Python `str.replace` for a single-character pattern. -/
def str_replace_char (pat : Char) (repl : List Char) (l : List Char) : List Char :=
  l.flatMap (fun c => if c = pat then repl else [c])

/-- `PdfTocEntry.escape_pdf_text` (toc.py lines 69-83):
`value.replace("\\", "\\\\").replace("(", "\\(").replace(")", "\\)")`,
at the character level. -/
def escape_pdf_text (l : List Char) : List Char :=
  str_replace_char ')' ['\\', ')']
    (str_replace_char '(' ['\\', '(']
      (str_replace_char '\\' ['\\', '\\'] l))

/-- The per-character effect of the three replacements: each special
character contributes itself preceded by a backslash, any other
character contributes itself. -/
def pdf_escape_char (c : Char) : List Char :=
  if c = '\\' ∨ c = '(' ∨ c = ')' then ['\\', c] else [c]

/-- Decoder for PDF string-literal escapes: a backslash consumes the
following character verbatim.  Left inverse of `escape_pdf_text`. -/
def unescape_pdf_text : List Char → List Char
  | [] => []
  | c :: rest =>
    if c = '\\' then
      match rest with
      | [] => []
      | c2 :: rest2 => c2 :: unescape_pdf_text rest2
    else c :: unescape_pdf_text rest

/-! ## Concrete inputs used by scenarios and witnesses -/

/-- A generic level-1 entry pointing at page 1. -/
def sample_entry : TocEntry := ⟨"https://wiki/A", "A", 1, 1⟩

/-- Scenario B of the spec: 30 TOC entries. -/
def entries30 : List TocEntry := List.replicate 30 sample_entry

/-- 62 entries: enough to overflow onto a third TOC page. -/
def entries62 : List TocEntry := List.replicate 62 sample_entry

/-! ## Theorems: TOC paginator -/

theorem pageLoop_fst_map_append (l : List TocEntry) (pos : Int) :
    ((pageLoop l pos).1.map Prod.fst) ++ (pageLoop l pos).2 = l := by
  induction l generalizing pos with
  | nil => simp [pageLoop]
  | cons e rest ih =>
    by_cases h : pos - LINE_HEIGHT < MARGIN + LINE_HEIGHT
    · simp [pageLoop, h]
    · simp only [pageLoop, if_neg h, List.map_cons, List.cons_append, List.cons.injEq, true_and]
      exact ih (pos - LINE_HEIGHT)

theorem pageLoop_fst_ne_nil (e : TocEntry) (rest : List TocEntry) (pos : Int) :
    (pageLoop (e :: rest) pos).1 ≠ [] := by
  by_cases h : pos - LINE_HEIGHT < MARGIN + LINE_HEIGHT <;>
    simp [pageLoop, h]

theorem pageLoop_snd_length (e : TocEntry) (rest : List TocEntry) (pos : Int) :
    (pageLoop (e :: rest) pos).2.length < (e :: rest).length := by
  have h := pageLoop_fst_map_append (e :: rest) pos
  have hlen : ((pageLoop (e :: rest) pos).1.map Prod.fst).length
      + (pageLoop (e :: rest) pos).2.length = (e :: rest).length := by
    rw [← List.length_append, h]
  have hne := pageLoop_fst_ne_nil e rest pos
  have hpos : 0 < (pageLoop (e :: rest) pos).1.length := List.length_pos.mpr hne
  simp only [List.length_map] at hlen
  omega

theorem generate_toc_pages_flatten (fuel : Nat) (l : List TocEntry) (first : Bool)
    (hf : l.length ≤ fuel) :
    ((generate_toc_pages fuel l first).map (fun p => p.map Prod.fst)).flatten = l := by
  induction fuel generalizing l first with
  | zero =>
    cases l with
    | nil => simp [generate_toc_pages]
    | cons e rest => simp at hf
  | succ fuel ih =>
    cases l with
    | nil => simp [generate_toc_pages]
    | cons e rest =>
      rw [generate_toc_pages]
      simp only [List.map_cons, List.flatten_cons]
      have hlt := pageLoop_snd_length e rest (toc_start_position first)
      rw [ih (generate_single_toc_page (e :: rest) first).2 false
        (by simp only [generate_single_toc_page]; simp at hf hlt ⊢; omega)]
      exact pageLoop_fst_map_append (e :: rest) (toc_start_position first)

theorem generate_toc_pages_ne_nil (fuel : Nat) (l : List TocEntry) (first : Bool) :
    ∀ p ∈ generate_toc_pages fuel l first, p ≠ [] := by
  induction fuel generalizing l first with
  | zero => simp [generate_toc_pages]
  | succ fuel ih =>
    cases l with
    | nil => simp [generate_toc_pages]
    | cons e rest =>
      rw [generate_toc_pages]
      intro p hp
      rcases List.mem_cons.mp hp with h | h
      · subst h
        exact pageLoop_fst_ne_nil e rest (toc_start_position first)
      · exact ih (generate_single_toc_page (e :: rest) first).2 false p h

theorem pageLoop_offsets_lb (l : List TocEntry) (pos : Int)
    (hpos : MARGIN + LINE_HEIGHT ≤ pos) :
    ∀ ep ∈ (pageLoop l pos).1, MARGIN + LINE_HEIGHT ≤ ep.2 := by
  induction l generalizing pos with
  | nil => simp [pageLoop]
  | cons e rest ih =>
    by_cases h : pos - LINE_HEIGHT < MARGIN + LINE_HEIGHT
    · simp only [pageLoop, if_pos h, List.mem_singleton]
      rintro ep rfl
      exact hpos
    · simp only [pageLoop, if_neg h, List.mem_cons]
      rintro ep (rfl | hmem)
      · exact hpos
      · exact ih (pos - LINE_HEIGHT) (by omega) ep hmem

theorem toc_start_position_lb (first : Bool) :
    MARGIN + LINE_HEIGHT ≤ toc_start_position first := by
  cases first <;> decide

theorem generate_toc_pages_offsets_lb (fuel : Nat) (l : List TocEntry) (first : Bool) :
    ∀ p ∈ generate_toc_pages fuel l first, ∀ ep ∈ p, MARGIN + LINE_HEIGHT ≤ ep.2 := by
  induction fuel generalizing l first with
  | zero => simp [generate_toc_pages]
  | succ fuel ih =>
    cases l with
    | nil => simp [generate_toc_pages]
    | cons e rest =>
      rw [generate_toc_pages]
      intro p hp
      rcases List.mem_cons.mp hp with h | h
      · subst h
        exact pageLoop_offsets_lb (e :: rest) (toc_start_position first)
          (toc_start_position_lb first)
      · exact ih (generate_single_toc_page (e :: rest) first).2 false p h

/-- C1: `generate_toc_pdf` partitions its entry list across the generated
TOC pages in order: concatenating the entries of each page, in page order,
reproduces the input list; the per-page entry counts sum to the input
length; every generated page holds at least one entry; and the empty
entry list yields zero TOC pages. -/
theorem toc_paginator_partitions_entries (l : List TocEntry) :
    ((generate_toc_pdf l).map (fun p => p.map Prod.fst)).flatten = l
    ∧ ((generate_toc_pdf l).map List.length).sum = l.length
    ∧ (∀ p ∈ generate_toc_pdf l, p ≠ [])
    ∧ generate_toc_pdf [] = [] := by
  refine ⟨generate_toc_pages_flatten l.length l true le_rfl, ?_,
    generate_toc_pages_ne_nil l.length l true, rfl⟩
  have h := congrArg List.length (generate_toc_pages_flatten l.length l true le_rfl)
  simp only [List.length_flatten, List.map_map] at h
  have h2 : (List.length ∘ fun p : List (TocEntry × Int) => List.map Prod.fst p)
      = List.length := by
    funext p
    simp
  rw [h2] at h
  exact h

/-- C4: every entry laid out by the TOC paginator is drawn at or above the
bottom margin, and its clickable annotation rectangle (spanning
`offset ± LINE_HEIGHT / 2`, toc.py lines 136-141) also stays at or above
the bottom margin. -/
theorem toc_entries_above_bottom_margin (l : List TocEntry)
    (p : List (TocEntry × Int)) (hp : p ∈ generate_toc_pdf l)
    (ep : TocEntry × Int) (hep : ep ∈ p) :
    MARGIN ≤ ep.2 ∧ MARGIN ≤ ep.2 - LINE_HEIGHT / 2 := by
  have h := generate_toc_pages_offsets_lb l.length l true p hp ep hep
  simp only [MARGIN, LINE_HEIGHT] at h ⊢
  omega

/-- Witness for C4 at a concrete one-entry list: its single page places
the entry at offset 696, at and above the 72-unit bottom margin. -/
theorem toc_entries_above_bottom_margin_witness :
    ([(sample_entry, (696 : Int))] ∈ generate_toc_pdf [sample_entry]
        ∧ (sample_entry, (696 : Int)) ∈ [(sample_entry, (696 : Int))])
    ∧ MARGIN ≤ (696 : Int) ∧ MARGIN ≤ (696 : Int) - LINE_HEIGHT / 2 :=
  ⟨⟨by decide, by decide⟩,
    toc_entries_above_bottom_margin [sample_entry] [(sample_entry, (696 : Int))]
      (by decide) (sample_entry, (696 : Int)) (by decide)⟩

/-- C5 as stated is false on the code: for the 30-entry input the
paginator emits a single TOC page carrying all 30 entries, so there is
no subsequent page the first page could hold fewer entries than — the
title adjustment raises the first page's start position by
`TOC_FONT_SIZE` instead of reserving space. -/
theorem toc_scenario_b_counterexample :
    ¬ (1 < ((generate_toc_pdf entries30).map List.length).length
        ∧ (∀ i c0 ci, 0 < i →
            ((generate_toc_pdf entries30).map List.length)[0]? = some c0 →
            ((generate_toc_pdf entries30).map List.length)[i]? = some ci →
            c0 < ci)
        ∧ ((generate_toc_pdf entries30).map List.length).sum = 30) := by
  intro h
  have h1 := h.1
  have hlen : ((generate_toc_pdf entries30).map List.length).length = 1 := by decide
  omega

/-- C5 amended: the 30-entry scenario produces exactly one TOC page
holding all 30 entries (counts sum to 30); the first page is never the
smaller one — its start position is `TOC_FONT_SIZE` higher than on
continuation pages, so it fits 31 lines where later pages fit 30, as the
62-entry input shows with per-page counts [31, 30, 1]. -/
theorem toc_scenario_b_amended :
    (generate_toc_pdf entries30).map List.length = [30]
    ∧ ((generate_toc_pdf entries30).map List.length).sum = 30
    ∧ (generate_toc_pdf entries62).map List.length = [31, 30, 1] :=
  ⟨by decide, by decide, by decide⟩

/-! ## Theorems: fragment registry -/

theorem foldl_register_title_list (fs : List Fragment) (s : RegState) :
    (fs.foldl register_fragment s).title_list
      = s.title_list ++ entriesFrom s.page_num fs := by
  induction fs generalizing s with
  | nil => simp [entriesFrom]
  | cons f rest ih =>
    simp only [List.foldl_cons, ih, register_fragment, entriesFrom]
    simp

theorem foldl_register_page_num (fs : List Fragment) (s : RegState) :
    (fs.foldl register_fragment s).page_num
      = s.page_num + (fs.map Fragment.page_count).sum := by
  induction fs generalizing s with
  | nil => simp
  | cons f rest ih =>
    simp only [List.foldl_cons, ih, register_fragment, List.map_cons, List.sum_cons]
    omega

theorem foldl_register_url_map (fs : List Fragment) (s : RegState) :
    (fs.foldl register_fragment s).url_to_page
      = (urlPairsFrom s.page_num fs).reverse ++ s.url_to_page := by
  induction fs generalizing s with
  | nil => simp [urlPairsFrom]
  | cons f rest ih =>
    simp only [List.foldl_cons, ih, register_fragment, urlPairsFrom, List.reverse_cons]
    simp

theorem entriesFrom_getElem (p : Nat) (fs : List Fragment) (k : Nat) (f : Fragment)
    (h : fs[k]? = some f) :
    (entriesFrom p fs)[k]?
      = some ⟨f.url, f.title, p + ((fs.take k).map Fragment.page_count).sum, f.level⟩ := by
  induction fs generalizing p k with
  | nil => simp at h
  | cons g rest ih =>
    cases k with
    | zero =>
      simp only [List.getElem?_cons_zero, Option.some.injEq] at h
      subst h
      simp [entriesFrom]
    | succ k =>
      simp only [List.getElem?_cons_succ] at h
      simp only [entriesFrom, List.getElem?_cons_succ, List.take_succ_cons,
        List.map_cons, List.sum_cons, ih (p + g.page_count) k h]
      congr 2
      omega

theorem urlPairsFrom_append (p : Nat) (l1 l2 : List Fragment) :
    urlPairsFrom p (l1 ++ l2)
      = urlPairsFrom p l1 ++ urlPairsFrom (p + (l1.map Fragment.page_count).sum) l2 := by
  induction l1 generalizing p with
  | nil => simp [urlPairsFrom]
  | cons f rest ih =>
    simp only [List.cons_append, urlPairsFrom, List.map_cons, List.sum_cons,
      List.cons.injEq, true_and, List.append_eq]
    rw [ih, ← Nat.add_assoc]

theorem insert_toc_pages_from_append {α : Type} (pre doc ts : List α) :
    insert_toc_pages_from (pre ++ doc) pre.length ts = pre ++ ts ++ doc := by
  induction ts generalizing pre with
  | nil => simp [insert_toc_pages_from]
  | cons t rest ih =>
    have hins : ∀ (q d : List α), (q ++ d).insertIdx q.length t = q ++ t :: d := by
      intro q
      induction q with
      | nil => simp
      | cons a as ihq => simp [List.insertIdx_succ_cons, ihq]
    rw [insert_toc_pages_from, hins]
    have h2 := ih (pre ++ [t])
    simp only [List.length_append, List.length_cons, List.length_nil] at h2 ⊢
    simpa [List.append_assoc] using h2

theorem insert_toc_pages_eq {α : Type} (doc toc : List α) :
    insert_toc_pages doc toc = toc ++ doc := by
  have h := insert_toc_pages_from_append ([] : List α) doc toc
  simpa [insert_toc_pages] using h

/-- C2: fragments registered strictly in completion order receive, as
their `TocEntry` page, the running page counter before it advances
(1 plus the page counts of all earlier fragments); the URL map records
that counter plus 1 (the intentional off-by-one); the counter then
advances by the fragment's page count.  In scenario A (page counts
[2, 1, 3]) the recorded pages are [1, 3, 4]; a single TOC page is
generated for them, inserting TOC pages at the front puts them before
every body page, and the body fragments land on final pages [2, 4, 5]. -/
theorem fragment_registry_page_accounting (fs : List Fragment) (k : Nat)
    (f : Fragment) (h : fs[k]? = some f) :
    ((register_fragments fs).title_list)[k]?
        = some ⟨f.url, f.title, 1 + ((fs.take k).map Fragment.page_count).sum, f.level⟩
    ∧ (register_fragments (fs.take (k + 1))).url_to_page.lookup f.url
        = some (1 + ((fs.take k).map Fragment.page_count).sum + 1)
    ∧ (register_fragments fs).page_num = 1 + (fs.map Fragment.page_count).sum
    ∧ (register_fragments fragmentsA).title_list.map TocEntry.page = [1, 3, 4]
    ∧ (generate_toc_pdf ((register_fragments fragmentsA).title_list)).length = 1
    ∧ ((register_fragments fragmentsA).title_list.map (fun e =>
          (generate_toc_pdf ((register_fragments fragmentsA).title_list)).length
            + e.page)) = [2, 4, 5]
    ∧ (∀ (body toc : List Nat), insert_toc_pages body toc = toc ++ body) := by
  refine ⟨?_, ?_, ?_, by decide, by decide, by decide,
    fun body toc => insert_toc_pages_eq body toc⟩
  · rw [register_fragments, foldl_register_title_list]
    simpa [initial_state] using entriesFrom_getElem 1 fs k f h
  · rw [register_fragments, foldl_register_url_map]
    have htake : fs.take (k + 1) = fs.take k ++ [f] := by
      rw [List.take_succ, h]
      simp
    rw [htake, urlPairsFrom_append]
    simp [initial_state, urlPairsFrom, List.lookup]
  · rw [register_fragments, foldl_register_page_num]
    simp [initial_state]

/-- Witness for C2 at scenario A, `k = 1`: the second fragment's entry
records page 3 = 1 + 2. -/
theorem fragment_registry_page_accounting_witness :
    ((register_fragments fragmentsA).title_list)[1]?
      = some ⟨"https://wiki/Setup", "Setup",
          1 + ((fragmentsA.take 1).map Fragment.page_count).sum, 1⟩ :=
  (fragment_registry_page_accounting fragmentsA 1
    ⟨"https://wiki/Setup", "Setup", 1, 1⟩ (by decide)).1

/-! ## Theorems: link rewriter -/

/-- C3: the link-rewrite pass replaces an annotation's action exactly
when the annotation has `/Link` subtype and carries a `/URI` present in
the URL map; the new action is an internal `/GoTo` with destination
`[map[url], /Fit]` and is not of the external-reference kind `/URI`;
annotations with a non-link subtype, no action, no URI, or a URI absent
from the map pass through unchanged. -/
theorem link_rewrite_characterized (m : List (String × Nat)) (annots : List Annot)
    (i : Nat) (an : Annot) (h : annots[i]? = some an) :
    (replace_links_in_page m annots)[i]? = some (rewrite_annot m an)
    ∧ (∀ act u p, an.subtype = "/Link" → an.a = some act → act.uri = some u →
        m.lookup u = some p →
        rewrite_annot m an = ⟨an.subtype, some ⟨"/GoTo", none, some (p, "/Fit")⟩⟩
          ∧ (∀ act2, (rewrite_annot m an).a = some act2 → act2.s ≠ "/URI"))
    ∧ (an.subtype ≠ "/Link" → rewrite_annot m an = an)
    ∧ (an.a = none → rewrite_annot m an = an)
    ∧ (∀ act, an.a = some act → act.uri = none → rewrite_annot m an = an)
    ∧ (∀ act u, an.a = some act → act.uri = some u → m.lookup u = none →
        rewrite_annot m an = an) := by
  refine ⟨?_, ?_, ?_, ?_, ?_, ?_⟩
  · simp [replace_links_in_page, List.getElem?_map, h]
  · intro act u p hsub hact huri hlook
    have hrw : rewrite_annot m an
        = ⟨an.subtype, some ⟨"/GoTo", none, some (p, "/Fit")⟩⟩ := by
      simp [rewrite_annot, hsub, hact, huri, hlook, replace_url_link]
    refine ⟨hrw, ?_⟩
    intro act2 hact2
    rw [hrw] at hact2
    simp only [Option.some.injEq] at hact2
    subst hact2
    exact (by decide : ("/GoTo" : String) ≠ "/URI")
  · intro hsub
    simp [rewrite_annot, hsub]
  · intro hnone
    by_cases hsub : an.subtype = "/Link" <;> simp [rewrite_annot, hsub, hnone]
  · intro act hact huri
    by_cases hsub : an.subtype = "/Link" <;> simp [rewrite_annot, hsub, hact, huri]
  · intro act u hact huri hlook
    by_cases hsub : an.subtype = "/Link" <;>
      simp [rewrite_annot, hsub, hact, huri, hlook]

/-- Witness for C3 at one `/Link` annotation whose URI maps to page 3. -/
theorem link_rewrite_characterized_witness :
    (replace_links_in_page [("https://wiki/A", 3)]
        [⟨"/Link", some ⟨"/URI", some "https://wiki/A", none⟩⟩])[0]?
      = some (rewrite_annot [("https://wiki/A", 3)]
          ⟨"/Link", some ⟨"/URI", some "https://wiki/A", none⟩⟩) :=
  (link_rewrite_characterized [("https://wiki/A", 3)]
    [⟨"/Link", some ⟨"/URI", some "https://wiki/A", none⟩⟩] 0
    ⟨"/Link", some ⟨"/URI", some "https://wiki/A", none⟩⟩ (by decide)).1

/-! ## Theorems: persistence failure handling -/

/-- C6 (evidence of the divergence): at an invalid output path the save
raises `OSError`, yet the `try/except` in `concat_pages` catches it, so
the caller observes a normal successful return; the only trace of the
failure is the fatal-severity log line, and the underlying cause is not
re-raised. -/
theorem save_failure_swallowed :
    save_document false = Except.error "OSError"
    ∧ (concat_pages_save false).1 = Except.ok ()
    ∧ (concat_pages_save false).2
        = ["OSError when trying to save. Does the name contain bad characters?"] :=
  ⟨rfl, rfl, rfl⟩

/-! ## Theorems: page decorator placement -/

/-- C7: the footer is right-aligned at
`x = PAGE_WIDTH (612) - measured width - MARGIN (72)`; the header is
left-aligned at the margin and sits above the top margin line
(`PAGE_HEIGHT - MARGIN`) by twice the decoration font size. -/
theorem header_footer_placement (tw : String → Int → Rat) (text : String)
    (font_size : Int) (font_sign : String) :
    (footer tw text font_size font_sign).x
        = (PAGE_WIDTH : Rat) - tw text font_size - (MARGIN : Rat)
    ∧ PAGE_WIDTH = 612 ∧ MARGIN = 72
    ∧ (header text font_size font_sign).x = (MARGIN : Rat)
    ∧ (header text font_size font_sign).y
        = ((PAGE_HEIGHT - MARGIN : Int) : Rat) + 2 * (font_size : Rat) := by
  refine ⟨rfl, rfl, rfl, rfl, ?_⟩
  simp only [header]
  push_cast
  ring

/-! ## Theorems: font resource registration -/

theorem insert_or_replace_idem (k : String) (v : FontDict)
    (l : List (String × FontDict)) :
    insert_or_replace k v (insert_or_replace k v l) = insert_or_replace k v l := by
  induction l with
  | nil => simp [insert_or_replace]
  | cons kv rest ih =>
    obtain ⟨k2, v2⟩ := kv
    by_cases h : k2 = k
    · subst h
      simp [insert_or_replace]
    · simp [insert_or_replace, h, ih]

theorem countP_key_eq_zero (k : String) (l : List (String × FontDict))
    (h : k ∉ l.map Prod.fst) :
    l.countP (fun kv => kv.1 == k) = 0 := by
  induction l with
  | nil => simp
  | cons kv rest ih =>
    simp only [List.map_cons, List.mem_cons] at h
    push_neg at h
    rw [List.countP_cons]
    have hf : (kv.1 == k) = false := by
      simp only [beq_eq_false_iff_ne, ne_eq]
      exact fun hc => h.1 hc.symm
    simp [ih h.2, hf]

theorem insert_or_replace_countP (k : String) (v : FontDict)
    (l : List (String × FontDict)) (h : (l.map Prod.fst).Nodup) :
    (insert_or_replace k v l).countP (fun kv => kv.1 == k) = 1 := by
  induction l with
  | nil => simp [insert_or_replace]
  | cons kv rest ih =>
    obtain ⟨k2, v2⟩ := kv
    simp only [List.map_cons, List.nodup_cons] at h
    by_cases hk : k2 = k
    · subst hk
      have hins : insert_or_replace k2 v ((k2, v2) :: rest) = (k2, v) :: rest := by
        simp [insert_or_replace]
      rw [hins, List.countP_cons]
      have h0 := countP_key_eq_zero k2 rest h.1
      simp [h0]
    · simp only [insert_or_replace, if_neg hk]
      rw [List.countP_cons]
      have h1 := ih h.2
      simp [h1, hk]

/-- C9: registering the decoration font twice on the same page leaves
exactly one `/F2` entry in the page's font table, not two: the second
`add_resource` replaces the binding rather than duplicating it
(pikepdf's `replace_existing=True` default), so the registration is
idempotent.  The page's font table is assumed to have distinct keys, the
PDF dictionary invariant. -/
theorem ensure_resources_idempotent (page : PageResources)
    (h : (page.fonts.map Prod.fst).Nodup) :
    ensure_resources (ensure_resources page) = ensure_resources page
    ∧ ((ensure_resources (ensure_resources page)).fonts.countP
        (fun kv => kv.1 == "/F2")) = 1 := by
  constructor
  · exact congrArg PageResources.mk
      (insert_or_replace_idem "/F2" (font_dictionary "Arial") page.fonts)
  · have hfonts : (ensure_resources (ensure_resources page)).fonts
        = insert_or_replace "/F2" (font_dictionary "Arial")
            (insert_or_replace "/F2" (font_dictionary "Arial") page.fonts) := rfl
    rw [hfonts, insert_or_replace_idem]
    exact insert_or_replace_countP "/F2" (font_dictionary "Arial") page.fonts h

/-- Witness for C9 at a page whose font table holds only `/F1`. -/
theorem ensure_resources_idempotent_witness :
    (([("/F1", font_dictionary "Helvetica")].map Prod.fst).Nodup)
    ∧ (ensure_resources (ensure_resources ⟨[("/F1", font_dictionary "Helvetica")]⟩)
          = ensure_resources ⟨[("/F1", font_dictionary "Helvetica")]⟩
        ∧ ((ensure_resources
              (ensure_resources ⟨[("/F1", font_dictionary "Helvetica")]⟩)).fonts.countP
            (fun kv => kv.1 == "/F2")) = 1) :=
  ⟨by decide,
    ensure_resources_idempotent ⟨[("/F1", font_dictionary "Helvetica")]⟩ (by decide)⟩

/-! ## Theorems: TOC text escaping -/

theorem str_replace_char_append (pat : Char) (repl : List Char) (l1 l2 : List Char) :
    str_replace_char pat repl (l1 ++ l2)
      = str_replace_char pat repl l1 ++ str_replace_char pat repl l2 := by
  simp [str_replace_char]

theorem escape_char_effect (c : Char) :
    str_replace_char ')' ['\\', ')']
        (str_replace_char '(' ['\\', '(']
          (str_replace_char '\\' ['\\', '\\'] [c])) = pdf_escape_char c := by
  by_cases h1 : c = '\\'
  · subst h1
    decide
  by_cases h2 : c = '('
  · subst h2
    decide
  by_cases h3 : c = ')'
  · subst h3
    decide
  simp [str_replace_char, pdf_escape_char, h1, h2, h3]

theorem escape_pdf_text_eq_flatMap (l : List Char) :
    escape_pdf_text l = l.flatMap pdf_escape_char := by
  induction l with
  | nil => rfl
  | cons c rest ih =>
    have hsplit : escape_pdf_text (c :: rest)
        = str_replace_char ')' ['\\', ')']
            (str_replace_char '(' ['\\', '(']
              (str_replace_char '\\' ['\\', '\\'] [c]))
          ++ escape_pdf_text rest := by
      simp only [escape_pdf_text]
      rw [show (c :: rest) = [c] ++ rest from rfl, str_replace_char_append,
        str_replace_char_append, str_replace_char_append]
    rw [hsplit, escape_char_effect, ih, List.flatMap_cons]

theorem unescape_escape (l : List Char) :
    unescape_pdf_text (escape_pdf_text l) = l := by
  rw [escape_pdf_text_eq_flatMap]
  induction l with
  | nil => rfl
  | cons c rest ih =>
    rw [List.flatMap_cons]
    by_cases h1 : c = '\\' ∨ c = '(' ∨ c = ')'
    · have hc : pdf_escape_char c = ['\\', c] := by simp [pdf_escape_char, h1]
      rw [hc]
      show unescape_pdf_text ('\\' :: c :: rest.flatMap pdf_escape_char) = c :: rest
      rw [unescape_pdf_text.eq_def]
      simp [ih]
    · have hne : c ≠ '\\' := fun hcc => h1 (Or.inl hcc)
      have hc : pdf_escape_char c = [c] := by simp [pdf_escape_char, h1]
      rw [hc]
      show unescape_pdf_text (c :: rest.flatMap pdf_escape_char) = c :: rest
      rw [unescape_pdf_text.eq_def]
      simp [hne, ih]

/-- C10: the three sequential replacements of `escape_pdf_text` act
per character: each `\`, `(` and `)` originating from the title emits
itself preceded by a backslash, every other character passes through
unchanged; consequently the escaping is injective (distinct titles give
distinct escaped strings), via the decoder `unescape_pdf_text`. -/
theorem escape_pdf_text_escapes_and_injective :
    (∀ l : List Char, escape_pdf_text l = l.flatMap pdf_escape_char)
    ∧ pdf_escape_char '\\' = ['\\', '\\']
    ∧ pdf_escape_char '(' = ['\\', '(']
    ∧ pdf_escape_char ')' = ['\\', ')']
    ∧ (∀ c : Char, c ≠ '\\' → c ≠ '(' → c ≠ ')' → pdf_escape_char c = [c])
    ∧ Function.Injective escape_pdf_text := by
  refine ⟨escape_pdf_text_eq_flatMap, by decide, by decide, by decide, ?_, ?_⟩
  · intro c hc1 hc2 hc3
    simp [pdf_escape_char, hc1, hc2, hc3]
  · intro l1 l2 h
    have h2 := congrArg unescape_pdf_text h
    rwa [unescape_escape, unescape_escape] at h2

end DownloadBook
